import Mathlib

/-!
Verification of the distributed-systems learning repository.

Shallow embedding of the Go sources:
* `packages/core/clock/vector.go` — vector clocks (`CompareVectorClocks`, `Merge`);
* `packages/network/transport/transport.go` — the simulated network transport;
* the Byzantine Generals plugin (`tryDecide`, consensus latch);
* `BaseNode` lifecycle (package `node`) and the Two Generals `GeneralNode`;
* the Two Generals configuration pipeline and the session manager timeline.

Go maps `map[string]uint64` are embedded as association lists with lookup
defaulting to the zero value, matching Go map-read semantics.
-/

/-! ### Vector clocks (`packages/core/clock/vector.go`) -/

inductive CausalRelation where
  | HappensBefore
  | HappensAfter
  | Concurrent
  | Equal
deriving DecidableEq, Repr

abbrev VClock := List (String × Nat)

/-- Go map read `m[k]` with `uint64` zero value for missing keys. -/
def getv : VClock → String → Nat
  | [], _ => 0
  | (k', v) :: rest, k => if k = k' then v else getv rest k

/-- Go map write `m[k] = v`: overwrite the binding if present, else add it. -/
def setv : VClock → String → Nat → VClock
  | [], k, v => [(k, v)]
  | (k', v') :: rest, k, v =>
      if k = k' then (k, v) :: rest else (k', v') :: setv rest k v

def keysOf (m : VClock) : List String := m.map Prod.fst

/-- The key set `allKeys` built in `CompareVectorClocks` (union of both key sets). -/
def allKeys (a b : VClock) : List String := keysOf a ++ keysOf b

/-- `CompareVectorClocks` from `vector.go`.  The loop body is, per key `k`:
`if aVal != bVal { equal = false }`, `if aVal > bVal { bLessOrEqual = false }`,
`if bVal > aVal { aLessOrEqual = false }`; the flags are order-independent
conjunctions over the key union, embedded with `List.all`. -/
def CompareVectorClocks (a b : VClock) : CausalRelation :=
  let keys := allKeys a b
  let equal := keys.all fun k => getv a k == getv b k
  let aLessOrEqual := keys.all fun k => ! decide (getv a k < getv b k)
  let bLessOrEqual := keys.all fun k => ! decide (getv b k < getv a k)
  if equal then CausalRelation.Equal
  else if aLessOrEqual && ! bLessOrEqual then CausalRelation.HappensBefore
  else if bLessOrEqual && ! aLessOrEqual then CausalRelation.HappensAfter
  else CausalRelation.Concurrent

/-- The specification's happens-before condition over the key union:
every key has `a[k] ≤ b[k]` and some key has `a[k] < b[k]`. -/
abbrev SpecHappensBefore (a b : VClock) : Prop :=
  (∀ k ∈ allKeys a b, getv a k ≤ getv b k) ∧ (∃ k ∈ allKeys a b, getv a k < getv b k)

/-- The specification's happens-after condition (the dual). -/
abbrev SpecHappensAfter (a b : VClock) : Prop :=
  (∀ k ∈ allKeys a b, getv b k ≤ getv a k) ∧ (∃ k ∈ allKeys a b, getv b k < getv a k)

/-- The `VectorClock` struct: owning node plus the clock map. -/
structure VectorClock where
  nodeID : String
  clock : VClock
deriving DecidableEq

/-- The loop of `Merge`: `for k, v := range received { if v > vc.clock[k] { vc.clock[k] = v } }`. -/
def mergeLoop (c : VClock) (received : VClock) : VClock :=
  received.foldl (fun acc kv => if getv acc kv.1 < kv.2 then setv acc kv.1 kv.2 else acc) c

/-- `VectorClock.Merge`: pointwise max with the received map, then `vc.clock[vc.nodeID]++`. -/
def VectorClock.Merge (vc : VectorClock) (received : VClock) : VectorClock :=
  let c := mergeLoop vc.clock received
  { vc with clock := setv c vc.nodeID (getv c vc.nodeID + 1) }

theorem getv_setv (c : VClock) (k : String) (v : Nat) (k' : String) :
    getv (setv c k v) k' = if k' = k then v else getv c k' := by
  induction c with
  | nil =>
    simp [setv, getv]
  | cons hd tl ih =>
    obtain ⟨k₁, v₁⟩ := hd
    by_cases h1 : k = k₁
    · subst h1
      by_cases h2 : k' = k <;> simp [setv, getv, h2]
    · by_cases h2 : k' = k₁
      · subst h2
        simp [setv, getv, h1, Ne.symm h1, ih]
      · simp [setv, getv, h1, h2, ih]

theorem getv_mergeLoop_not_mem (received : VClock) (c : VClock) (k : String)
    (h : k ∉ keysOf received) : getv (mergeLoop c received) k = getv c k := by
  induction received generalizing c with
  | nil => rfl
  | cons hd tl ih =>
    obtain ⟨k₁, v₁⟩ := hd
    simp only [keysOf, List.map_cons, List.mem_cons] at h
    push_neg at h
    have step : getv (if getv c k₁ < v₁ then setv c k₁ v₁ else c) k = getv c k := by
      split
      · rw [getv_setv]
        simp [h.1]
      · rfl
    have htl : k ∉ keysOf tl := h.2
    simpa [mergeLoop, step] using (ih (if getv c k₁ < v₁ then setv c k₁ v₁ else c) htl).trans step

theorem getv_mergeLoop (received : VClock) (c : VClock) (k : String)
    (hnd : (keysOf received).Nodup) :
    getv (mergeLoop c received) k = max (getv c k) (getv received k) := by
  induction received generalizing c with
  | nil =>
    simp [mergeLoop, getv]
  | cons hd tl ih =>
    obtain ⟨k₁, v₁⟩ := hd
    simp only [keysOf, List.map_cons, List.nodup_cons] at hnd
    by_cases hk : k = k₁
    · subst hk
      have hnot : k ∉ keysOf tl := hnd.1
      have : mergeLoop c ((k, v₁) :: tl) =
          mergeLoop (if getv c k < v₁ then setv c k v₁ else c) tl := rfl
      rw [this, getv_mergeLoop_not_mem tl _ k hnot]
      split
      · rw [getv_setv]
        simp [getv]
        omega
      · simp [getv]
        omega
    · have : mergeLoop c ((k₁, v₁) :: tl) =
          mergeLoop (if getv c k₁ < v₁ then setv c k₁ v₁ else c) tl := rfl
      rw [this, ih _ hnd.2]
      have step : getv (if getv c k₁ < v₁ then setv c k₁ v₁ else c) k = getv c k := by
        split
        · rw [getv_setv]
          simp [hk]
        · rfl
      rw [step]
      simp [getv, hk]

/-- C1: `CompareVectorClocks` at `a = {x:1}`, `b = {}`.  Here `b` pointwise
precedes `a` (the spec's happens-after condition for `(a,b)` holds and its
happens-before condition fails), yet the code returns `HappensBefore`: the
two flag updates in the comparison loop are swapped, inverting the
happens-before and happens-after verdicts. -/
theorem compareVectorClocks_inverted_at_x1 :
    CompareVectorClocks [("x", 1)] [] = CausalRelation.HappensBefore ∧
    SpecHappensAfter [("x", 1)] [] ∧ ¬ SpecHappensBefore [("x", 1)] [] := by
  decide

/-- C2: `Merge` sets every entry to the max of the local and received entries
(absent entries read as zero) and then increments the owner's entry by exactly
one; hence every entry is non-decreasing and the owner's entry strictly grows. -/
theorem merge_pointwise_max_then_increment (vc : VectorClock) (received : VClock)
    (hnd : (keysOf received).Nodup) :
    (∀ k, getv (vc.Merge received).clock k =
      (if k = vc.nodeID then max (getv vc.clock k) (getv received k) + 1
       else max (getv vc.clock k) (getv received k))) ∧
    (∀ k, getv vc.clock k ≤ getv (vc.Merge received).clock k) ∧
    getv (vc.Merge received).clock vc.nodeID =
      max (getv vc.clock vc.nodeID) (getv received vc.nodeID) + 1 := by
  have hpt : ∀ k, getv (vc.Merge received).clock k =
      (if k = vc.nodeID then max (getv vc.clock k) (getv received k) + 1
       else max (getv vc.clock k) (getv received k)) := by
    intro k
    show getv (setv (mergeLoop vc.clock received) vc.nodeID
        (getv (mergeLoop vc.clock received) vc.nodeID + 1)) k = _
    rw [getv_setv, getv_mergeLoop received vc.clock vc.nodeID hnd]
    by_cases hk : k = vc.nodeID
    · subst hk
      simp
    · simp [hk, getv_mergeLoop received vc.clock k hnd]
  refine ⟨hpt, ?_, ?_⟩
  · intro k
    rw [hpt k]
    split <;> omega
  · rw [hpt vc.nodeID]
    simp

theorem merge_pointwise_max_then_increment_witness :
    getv ((VectorClock.Merge ⟨"a", [("a", 1)]⟩ [("b", 2)]).clock) "a" =
      (if "a" = "a" then max (getv [("a", 1)] "a") (getv [("b", 2)] "a") + 1
       else max (getv [("a", 1)] "a") (getv [("b", 2)] "a")) :=
  (merge_pointwise_max_then_increment ⟨"a", [("a", 1)]⟩ [("b", 2)] (by decide)).1 "a"

/-! ### Network transport (`packages/network/transport/transport.go`) -/

/-- Routing metadata of an `Envelope` (the fields `Send` inspects). -/
structure Envelope where
  From : String
  To : String
deriving DecidableEq

/-- `NetworkTransport` state: open/closed flag, the partition matrix (as the
set of partitioned directed pairs), packet-loss probability, latency bounds,
the set of node IDs with a registered delivery handler, and whether a drop
handler is installed. -/
structure NetworkTransport where
  closed : Bool
  partitions : List (String × String)
  packetLoss : ℚ
  minLatency : Nat
  maxLatency : Nat
  handlers : List String
  dropHandlerSet : Bool
deriving DecidableEq

/-- `isPartitioned`: membership of the directed pair in the partition matrix. -/
def isPartitioned (t : NetworkTransport) (f : String) (tgt : String) : Bool :=
  t.partitions.contains (f, tgt)

/-- Observable outcome of one `Send` call: whether the delivery handler is
invoked, the reasons passed to the drop handler, and the returned error. -/
structure SendResult where
  delivered : Bool
  dropCalls : List String
  err : Option String
deriving DecidableEq

/-- `NetworkTransport.Send`.  `lossRoll` stands for the `rand.Float64()`
sample used by the packet-loss check; latency only delays the handler
invocation, so it does not appear in the outcome. -/
def NetworkTransport.Send (t : NetworkTransport) (env : Envelope) (lossRoll : ℚ) : SendResult :=
  if t.closed then ⟨false, [], none⟩
  else if isPartitioned t env.From env.To then
    ⟨false, if t.dropHandlerSet then ["network_partition"] else [], none⟩
  else if 0 < t.packetLoss ∧ lossRoll < t.packetLoss then
    ⟨false, if t.dropHandlerSet then ["packet_loss"] else [], none⟩
  else if t.handlers.contains env.To then ⟨true, [], none⟩
  else ⟨false, [], none⟩

/-- A closed transport whose partition matrix contains ("A","B") and which has
a drop handler installed. -/
def closedPartitionedTransport : NetworkTransport :=
  ⟨true, [("A", "B")], 0, 0, 0, ["B"], true⟩

/-- C3 counterexample: on a closed transport the partitioned pair ("A","B")
is in the partition matrix and a drop handler is installed, yet `Send`
returns without invoking the drop hook at all (the `closed` check precedes
the partition check), refuting the claim that every partitioned send invokes
the drop hook with reason `network_partition`. -/
theorem send_partitioned_closed_no_drop_hook :
    isPartitioned closedPartitionedTransport "A" "B" = true ∧
    closedPartitionedTransport.dropHandlerSet = true ∧
    (closedPartitionedTransport.Send ⟨"A", "B"⟩ 1).dropCalls = [] ∧
    (closedPartitionedTransport.Send ⟨"A", "B"⟩ 1).delivered = false := by
  decide

/-- C3 (amended): a partitioned envelope is never delivered and `Send`
returns `nil`, for every loss roll, latency setting and open/closed state;
and on an open transport with a drop handler installed the drop hook is
invoked with reason `network_partition`. -/
theorem send_respects_partitions (t : NetworkTransport) (env : Envelope) (lossRoll : ℚ)
    (hp : isPartitioned t env.From env.To = true) :
    (t.Send env lossRoll).delivered = false ∧
    (t.Send env lossRoll).err = none ∧
    (t.closed = false → t.dropHandlerSet = true →
      (t.Send env lossRoll).dropCalls = ["network_partition"]) := by
  by_cases hc : t.closed
  · refine ⟨?_, ?_, ?_⟩ <;> simp [NetworkTransport.Send, hc]
  · refine ⟨?_, ?_, ?_⟩ <;>
      intros <;>
      simp_all [NetworkTransport.Send, hp]

/-- An open transport with the pair ("A","B") partitioned and a drop handler
installed. -/
def openPartitionedTransport : NetworkTransport :=
  ⟨false, [("A", "B")], 0, 0, 0, ["B"], true⟩

theorem send_respects_partitions_witness :
    (openPartitionedTransport.Send ⟨"A", "B"⟩ 1).delivered = false ∧
    (openPartitionedTransport.Send ⟨"A", "B"⟩ 1).err = none ∧
    (openPartitionedTransport.closed = false → openPartitionedTransport.dropHandlerSet = true →
      (openPartitionedTransport.Send ⟨"A", "B"⟩ 1).dropCalls = ["network_partition"]) :=
  send_respects_partitions openPartitionedTransport ⟨"A", "B"⟩ 1 (by decide)

/-- C10: `Send` returns `nil` on every path — closed, partitioned, packet
loss, missing handler, or delivery — so a sender is never told of a failure. -/
theorem send_always_returns_nil (t : NetworkTransport) (env : Envelope) (lossRoll : ℚ) :
    (t.Send env lossRoll).err = none := by
  unfold NetworkTransport.Send
  repeat' split
  all_goals rfl

/-! ### Byzantine Generals plugin (`tryDecide` and the consensus latch) -/

inductive Behavior where
  | Honest
  | Traitor
  | Silent
deriving DecidableEq, Repr

/-- The counting loop of `tryDecide`: `if vote == "attack" { attackCount++ }
else { retreatCount++ }`, returning `(attackCount, retreatCount)`. -/
def countVotes (votes : List String) : Nat × Nat :=
  votes.foldl (fun acc v => if v = "attack" then (acc.1 + 1, acc.2) else (acc.1, acc.2 + 1)) (0, 0)

/-- The decision part of `ByzantineNode.tryDecide`: with `votesNeeded =
len(nodeIDs)/2 + 1`, return early (decision unchanged) while fewer than
`votesNeeded - 1` round-0 votes are stored, else decide `attack` iff
`attackCount >= retreatCount`.  `round0Votes` is the Go map from sender to
vote, so its length is the number of distinct voting peers. -/
def tryDecideDecision (nodeIDs : List String) (round0Votes : List (String × String))
    (decision : String) : String :=
  let votesNeeded := nodeIDs.length / 2 + 1
  if round0Votes.length < votesNeeded - 1 then decision
  else
    let counts := countVotes (round0Votes.map Prod.snd)
    if counts.2 ≤ counts.1 then "attack" else "retreat"

theorem countVotes_go (votes : List String) (a b : Nat) :
    votes.foldl (fun acc v => if v = "attack" then (acc.1 + 1, acc.2) else (acc.1, acc.2 + 1)) (a, b) =
      (a + votes.count "attack", b + votes.countP (fun v => v ≠ "attack")) := by
  induction votes generalizing a b with
  | nil =>
    simp
  | cons hd tl ih =>
    by_cases h : hd = "attack"
    · simp [h, List.foldl_cons, ih, List.count_cons, List.countP_cons]
      omega
    · simp [h, List.foldl_cons, ih, List.count_cons, List.countP_cons]
      omega

theorem countVotes_eq (votes : List String) :
    countVotes votes = (votes.count "attack", votes.countP (fun v => v ≠ "attack")) := by
  simpa using countVotes_go votes 0 0

/-- C4 counterexample: with `n = 5` nodes, round-0 votes from only 2 peers —
fewer than `⌈5/2⌉ = 3` — already change the lieutenant's decision (from the
empty string to "retreat"): the code's threshold is `⌊n/2⌋`, not `⌈n/2⌉`. -/
theorem tryDecide_fires_below_ceil_threshold :
    tryDecideDecision ["general-1", "general-2", "general-3", "general-4", "general-5"]
        [("general-2", "retreat"), ("general-3", "retreat")] "" = "retreat" ∧
    ("retreat" : String) ≠ "" ∧
    ([("general-2", "retreat"), ("general-3", "retreat")] : List (String × String)).length
      < (5 + 1) / 2 := by
  decide

/-- C4 (amended): with `n` nodes, once round-0 votes from at least `⌊n/2⌋`
peers are stored the decision becomes the majority vote — `attack` iff the
attack votes are at least as many as the non-attack votes (ties to attack),
else `retreat`; with fewer than `⌊n/2⌋` votes the decision is unchanged. -/
theorem tryDecide_majority_at_floor_threshold (nodeIDs : List String)
    (round0Votes : List (String × String)) (decision : String) :
    (round0Votes.length < nodeIDs.length / 2 →
      tryDecideDecision nodeIDs round0Votes decision = decision) ∧
    (nodeIDs.length / 2 ≤ round0Votes.length →
      tryDecideDecision nodeIDs round0Votes decision =
        if (round0Votes.map Prod.snd).countP (fun v => v ≠ "attack")
            ≤ (round0Votes.map Prod.snd).count "attack"
        then "attack" else "retreat") := by
  constructor
  · intro h
    have hlt : round0Votes.length < nodeIDs.length / 2 + 1 - 1 := by omega
    show (if round0Votes.length < nodeIDs.length / 2 + 1 - 1 then decision else _) = decision
    rw [if_pos hlt]
  · intro h
    have hge : ¬ round0Votes.length < nodeIDs.length / 2 + 1 - 1 := by omega
    show (if round0Votes.length < nodeIDs.length / 2 + 1 - 1 then decision else _) = _
    rw [if_neg hge, countVotes_eq]

theorem tryDecide_majority_at_floor_threshold_witness :
    tryDecideDecision ["general-1", "general-2", "general-3", "general-4", "general-5"]
        [] "undecided" = "undecided" :=
  (tryDecide_majority_at_floor_threshold
    ["general-1", "general-2", "general-3", "general-4", "general-5"] [] "undecided").1
    (by decide)

/-- The consensus scan of `tryDecide`: walk the node list; for each honest
node with a non-empty decision, adopt it if none is set yet, or stop with
`allHonestAgree = false` on a mismatch.  Returns the adopted decision and
the agree flag. -/
def scanHonest : List (Behavior × String) → String → String × Bool
  | [], honestDecision => (honestDecision, true)
  | (b, d) :: rest, honestDecision =>
    if b = Behavior.Honest ∧ d ≠ "" then
      if honestDecision = "" then scanHonest rest d
      else if d ≠ honestDecision then (honestDecision, false)
      else scanHonest rest honestDecision
    else scanHonest rest honestDecision

/-- The guarded consensus block of `tryDecide`: under the `consensusReached`
latch, scan the honest decisions and emit `consensus_reached` with the agreed
value when the scan succeeds with a non-empty decision. -/
def consensusCheck (consensusReached : Bool) (nodes : List (Behavior × String)) : Option String :=
  if consensusReached then none
  else
    let r := scanHonest nodes ""
    if r.2 ∧ r.1 ≠ "" then some r.1 else none

theorem scanHonest_keep (nodes : List (Behavior × String)) (hd : String) (hne : hd ≠ "") :
    (scanHonest nodes hd).1 = hd := by
  induction nodes generalizing hd with
  | nil => rfl
  | cons p rest ih =>
    obtain ⟨b, d⟩ := p
    by_cases hb : b = Behavior.Honest ∧ d ≠ ""
    · by_cases hdd : d ≠ hd
      · simp [scanHonest, hb, hne, hdd]
      · simp [scanHonest, hb, hne, hdd, ih hd hne]
    · simp [scanHonest, hb, ih hd hne]

theorem scanHonest_true (nodes : List (Behavior × String)) (hd : String)
    (h : (scanHonest nodes hd).2 = true) :
    (∀ p ∈ nodes, p.1 = Behavior.Honest → p.2 ≠ "" → p.2 = (scanHonest nodes hd).1) ∧
    ((scanHonest nodes hd).1 = hd ∨
      ∃ p ∈ nodes, p.1 = Behavior.Honest ∧ p.2 = (scanHonest nodes hd).1) := by
  induction nodes generalizing hd with
  | nil =>
    exact ⟨by simp, Or.inl rfl⟩
  | cons p rest ih =>
    obtain ⟨b, d⟩ := p
    by_cases hb : b = Behavior.Honest ∧ d ≠ ""
    · by_cases hhd : hd = ""
      · subst hhd
        have hrw : scanHonest ((b, d) :: rest) "" = scanHonest rest d := by
          simp [scanHonest, hb]
        rw [hrw] at h ⊢
        have hkeep : (scanHonest rest d).1 = d := scanHonest_keep rest d hb.2
        obtain ⟨hall, _⟩ := ih d h
        refine ⟨?_, Or.inr ⟨(b, d), by simp, hb.1, hkeep.symm⟩⟩
        intro q hq hq1 hq2
        rcases List.mem_cons.mp hq with hq | hq
        · rw [hq, hkeep]
        · exact hall q hq hq1 hq2
      · by_cases hdd : d ≠ hd
        · have hrw : scanHonest ((b, d) :: rest) hd = (hd, false) := by
            simp [scanHonest, hb, hhd, hdd]
          rw [hrw] at h
          simp at h
        · push_neg at hdd
          subst hdd
          have hrw : scanHonest ((b, d) :: rest) d = scanHonest rest d := by
            simp [scanHonest, hb, hhd]
          rw [hrw] at h ⊢
          have hkeep : (scanHonest rest d).1 = d := scanHonest_keep rest d hhd
          obtain ⟨hall, _⟩ := ih d h
          refine ⟨?_, Or.inl hkeep⟩
          intro q hq hq1 hq2
          rcases List.mem_cons.mp hq with hq | hq
          · rw [hq, hkeep]
          · exact hall q hq hq1 hq2
    · have hrw : scanHonest ((b, d) :: rest) hd = scanHonest rest hd := by
        simp [scanHonest, hb]
      rw [hrw] at h ⊢
      obtain ⟨hall, hex⟩ := ih hd h
      refine ⟨?_, ?_⟩
      · intro q hq hq1 hq2
        rcases List.mem_cons.mp hq with hq | hq
        · exfalso
          apply hb
          rw [hq] at hq1 hq2
          exact ⟨hq1, hq2⟩
        · exact hall q hq hq1 hq2
      · rcases hex with hex | ⟨q, hq, hq1, hq2⟩
        · exact Or.inl hex
        · exact Or.inr ⟨q, List.mem_cons_of_mem _ hq, hq1, hq2⟩

/-- C5 counterexample: with the latch clear and two honest nodes of which
only the first has decided ("attack", the second still undecided with the
empty decision), the code emits `consensus_reached` — emission does not wait
for every honest node's decision to agree, only for the decided ones. -/
theorem consensus_emitted_with_undecided_honest :
    consensusCheck false [(Behavior.Honest, "attack"), (Behavior.Honest, "")] = some "attack" ∧
    ((Behavior.Honest, "") ∈ [(Behavior.Honest, "attack"), (Behavior.Honest, "")] ∧
      ("" : String) ≠ "attack") := by
  decide

/-- C5 (amended): `consensus_reached` is emitted only when every honest node
that has a non-empty decision agrees on a single non-empty value, it carries
that value (held by at least one honest node), and once the
`consensusReached` latch is set the check never emits again. -/
theorem consensus_emit_only_on_honest_agreement (nodes : List (Behavior × String)) (v : String)
    (h : consensusCheck false nodes = some v) :
    v ≠ "" ∧
    (∀ p ∈ nodes, p.1 = Behavior.Honest → p.2 ≠ "" → p.2 = v) ∧
    (∃ p ∈ nodes, p.1 = Behavior.Honest ∧ p.2 = v) ∧
    consensusCheck true nodes = none := by
  have hsome : (if (scanHonest nodes "").2 ∧ (scanHonest nodes "").1 ≠ ""
      then some (scanHonest nodes "").1 else (none : Option String)) = some v := by
    simpa [consensusCheck] using h
  by_cases hc : (scanHonest nodes "").2 ∧ (scanHonest nodes "").1 ≠ ""
  · rw [if_pos hc] at hsome
    have hv : (scanHonest nodes "").1 = v := Option.some.inj hsome
    obtain ⟨hall, hex⟩ := scanHonest_true nodes "" (by simpa using hc.1)
    refine ⟨hv ▸ hc.2, ?_, ?_, by simp [consensusCheck]⟩
    · intro q hq hq1 hq2
      rw [← hv]
      exact hall q hq hq1 hq2
    · rcases hex with hex | ⟨q, hq, hq1, hq2⟩
      · exact absurd hex hc.2
      · exact ⟨q, hq, hq1, hq2.trans hv⟩
  · rw [if_neg hc] at hsome
    exact absurd hsome (by simp)

theorem consensus_emit_only_on_honest_agreement_witness :
    ("attack" : String) ≠ "" ∧
    consensusCheck true [(Behavior.Honest, "attack")] = none := by
  have h := consensus_emit_only_on_honest_agreement [(Behavior.Honest, "attack")] "attack"
    (by decide)
  exact ⟨h.1, h.2.2.2⟩

/-! ### Node lifecycle (`package node`, `BaseNode`) and `GeneralNode` -/

inductive NState where
  | running
  | crashed
  | partitioned
  | byzantine
deriving DecidableEq, Repr

/-- Minimal envelope for the node inbox (package `message`). -/
structure MEnvelope where
  From : String
  To : String
deriving DecidableEq

/-- `message.Queue`: a bounded queue (buffered channel of the given capacity).
`Enqueue` appends when below capacity, else reports `false` and drops. -/
structure MQueue where
  messages : List MEnvelope
  capacity : Nat
deriving DecidableEq

def MQueue.Enqueue (q : MQueue) (env : MEnvelope) : MQueue × Bool :=
  if q.messages.length < q.capacity then ({ q with messages := q.messages ++ [env] }, true)
  else (q, false)

/-- `BaseNode`: id, lifecycle state, inbox, and whether a send function and
an event emitter were supplied to `NewBaseNode`. -/
structure BaseNode where
  id : String
  state : NState
  inbox : MQueue
  hasSendFunc : Bool
  hasEmitter : Bool
deriving DecidableEq

/-- `BaseNode.SetState`: unconditionally store the new state and, whenever an
emitter is set, emit one `node_state_changed` event carrying old and new
state.  Returns the updated node and the emitted events. -/
def BaseNode.SetState (n : BaseNode) (s : NState) : BaseNode × List (String × NState × NState) :=
  ({ n with state := s },
   if n.hasEmitter then [("node_state_changed", n.state, s)] else [])

def BaseNode.Crash (n : BaseNode) : BaseNode × List (String × NState × NState) :=
  n.SetState NState.crashed

def BaseNode.Recover (n : BaseNode) : BaseNode × List (String × NState × NState) :=
  n.SetState NState.running

/-- `BaseNode.Send`: when the state is not `running`, silently drop (no
outbound call, `nil` error); otherwise invoke the send function when present.
The first component is the outbound call handed to `sendFunc`. -/
def BaseNode.Send (n : BaseNode) (tgt : String) (msg : String) :
    Option (String × String × String) × Option String :=
  if n.state ≠ NState.running then (none, none)
  else if n.hasSendFunc then (some (n.id, tgt, msg), none)
  else (none, none)

/-- `BaseNode.Receive`: when the state is not `running`, silently drop;
otherwise enqueue into the inbox. -/
def BaseNode.Receive (n : BaseNode) (env : MEnvelope) : BaseNode :=
  if n.state ≠ NState.running then n
  else { n with inbox := (n.inbox.Enqueue env).1 }

/-- The Two Generals `GeneralNode` fields relevant to message receipt. -/
structure GeneralNode where
  id : String
  status : String
  decision : String
  inbox : List MEnvelope
deriving DecidableEq

/-- `GeneralNode.handleMessage`: `n.inbox <- env` — the transport delivery
callback pushes into the inbox channel with no status check at all. -/
def GeneralNode.handleMessage (n : GeneralNode) (env : MEnvelope) : GeneralNode :=
  { n with inbox := n.inbox ++ [env] }

/-- A crashed Two Generals node. -/
def crashedGeneral : GeneralNode := ⟨"general-1", "crashed", "", []⟩

/-- C6 counterexample: the Two Generals `GeneralNode` is not running
(status "crashed"), yet its delivery callback `handleMessage` still enqueues
the inbound envelope into its inbox — the inbox grows from empty to one
entry — refuting the claim that every non-running node discards inbound
envelopes without enqueuing them. -/
theorem general_handleMessage_enqueues_while_crashed :
    crashedGeneral.status ≠ "running" ∧
    (crashedGeneral.handleMessage ⟨"general-2", "general-1"⟩).inbox
      = [⟨"general-2", "general-1"⟩] := by
  constructor
  · decide
  · rfl

/-- C6 (amended): a `BaseNode` in any state other than `running` discards an
inbound envelope without touching its inbox and produces no outbound message
(and returns `nil`); a `GeneralNode`'s `handleMessage`, by contrast, always
appends the envelope to its inbox regardless of status — while not running
it only never processes it (`Tick` returns before dequeuing). -/
theorem node_nonrunning_discards (n : BaseNode) (env : MEnvelope) (tgt msg : String)
    (h : n.state ≠ NState.running) :
    n.Receive env = n ∧
    (n.Send tgt msg).1 = none ∧
    (n.Send tgt msg).2 = none ∧
    (∀ g : GeneralNode, ∀ e : MEnvelope, (g.handleMessage e).inbox = g.inbox ++ [e]) := by
  refine ⟨?_, ?_, ?_, fun g e => rfl⟩ <;>
    simp [BaseNode.Receive, BaseNode.Send, h]

/-- A crashed `BaseNode` used to instantiate the C6 theorem. -/
def crashedBase : BaseNode := ⟨"n1", NState.crashed, ⟨[], 1000⟩, true, true⟩

theorem node_nonrunning_discards_witness :
    crashedBase.Receive ⟨"n2", "n1"⟩ = crashedBase ∧
    (crashedBase.Send "n2" "hello").1 = none ∧
    (crashedBase.Send "n2" "hello").2 = none ∧
    (∀ g : GeneralNode, ∀ e : MEnvelope, (g.handleMessage e).inbox = g.inbox ++ [e]) :=
  node_nonrunning_discards crashedBase ⟨"n2", "n1"⟩ "n2" "hello" (by decide)

/-- An already-crashed `BaseNode` with an emitter installed. -/
def crashedEmitterBase : BaseNode := ⟨"n1", NState.crashed, ⟨[], 1000⟩, true, true⟩

/-- C7 counterexample: calling `Crash` on an already-crashed node leaves the
state unchanged but still emits a `node_state_changed` event (with equal old
and new state), refuting the claim that no event is emitted when no actual
transition happens. -/
theorem crash_on_crashed_still_emits :
    crashedEmitterBase.state = NState.crashed ∧
    crashedEmitterBase.Crash.1.state = crashedEmitterBase.state ∧
    crashedEmitterBase.Crash.2
      = [("node_state_changed", NState.crashed, NState.crashed)] := by
  refine ⟨rfl, rfl, rfl⟩

/-- C7 (amended): `crash()` and `recover()` are idempotent on the state —
they always leave the node `crashed` resp. `running`, so repeating them
changes nothing — but `SetState` emits one `node_state_changed` event on
every call whenever an emitter is installed, including calls that do not
change the state. -/
theorem crash_recover_state_and_events (n : BaseNode) :
    n.Crash.1.state = NState.crashed ∧
    n.Recover.1.state = NState.running ∧
    n.Crash.1.Crash.1 = n.Crash.1 ∧
    n.Recover.1.Recover.1 = n.Recover.1 ∧
    n.Crash.2 = (if n.hasEmitter then [("node_state_changed", n.state, NState.crashed)] else []) ∧
    n.Recover.2 = (if n.hasEmitter then [("node_state_changed", n.state, NState.running)] else []) := by
  refine ⟨rfl, rfl, rfl, rfl, rfl, rfl⟩

/-! ### Two Generals configuration (`projects.go` / `twogenerals.NewSimulation`) -/

/-- The `twogenerals.Config` fields used by `NewSimulation`. -/
structure TGConfig where
  DropRate : ℚ
  Scenario : String
  MaxRounds : Nat
deriving DecidableEq

/-- `createTwoGeneralsSimulation` (projects.go): scenario-selected drop rate
(default 0.3, `high_loss` 0.5, `no_loss` 0.0) and `MaxRounds: 10`. -/
def createTwoGeneralsConfig (scenario : String) : TGConfig :=
  let dropRate : ℚ :=
    if scenario = "high_loss" then 1/2
    else if scenario = "no_loss" then 0
    else 3/10
  ⟨dropRate, scenario, 10⟩

/-- `SetPacketLoss`: clamp the probability into [0, 1] and install it. -/
def setPacketLoss (p : ℚ) : ℚ :=
  if p < 0 then 0 else if p > 1 then 1 else p

/-- `twogenerals.NewSimulation` defaulting plus transport installation:
`MaxRounds == 0` falls back to 10, `DropRate == 0` falls back to 0.3, and the
resulting drop rate is installed via `SetPacketLoss`.  Returns the installed
packet-loss probability and the effective maximum round count. -/
def newSimulationInstall (config : TGConfig) : ℚ × Nat :=
  let maxRounds := if config.MaxRounds = 0 then 10 else config.MaxRounds
  let dropRate := if config.DropRate = 0 then 3/10 else config.DropRate
  (setPacketLoss dropRate, maxRounds)

/-- The composed pipeline: scenario → config → installed loss and rounds. -/
def effectiveTwoGenerals (scenario : String) : ℚ × Nat :=
  newSimulationInstall (createTwoGeneralsConfig scenario)

/-- C8: the `no_loss` scenario computes drop rate 0.0 in
`createTwoGeneralsSimulation`, but `NewSimulation` treats `DropRate == 0` as
unset and falls back to the 0.3 default, so the transport is installed with
packet loss 0.3 instead of the specified 0.0.  The default and `high_loss`
scenarios and the round maximum behave as specified. -/
theorem twoGenerals_no_loss_installs_default_loss :
    (effectiveTwoGenerals "no_loss").1 = 3/10 ∧
    (3/10 : ℚ) ≠ 0 ∧
    (createTwoGeneralsConfig "no_loss").DropRate = 0 ∧
    (effectiveTwoGenerals "normal").1 = 3/10 ∧
    (effectiveTwoGenerals "high_loss").1 = 1/2 ∧
    (effectiveTwoGenerals "no_loss").2 = 10 := by
  have hs1 : ("no_loss" : String) ≠ "high_loss" := by decide
  have hs2 : ("normal" : String) ≠ "high_loss" := by decide
  have hs3 : ("normal" : String) ≠ "no_loss" := by decide
  refine ⟨?_, by norm_num, ?_, ?_, ?_, ?_⟩ <;>
    norm_num [effectiveTwoGenerals, newSimulationInstall, createTwoGeneralsConfig,
      setPacketLoss, hs1, hs2, hs3]

/-! ### Session manager timeline (`apps/api/internal/simulation/manager.go`) -/

/-- `protocol.TimelineEvent`: timestamp, event type, payload. -/
structure TimelineEvent where
  time : Int
  etype : String
  data : List (String × String)
deriving DecidableEq

/-- `Manager.handleEvent` timeline update: append the event, then keep only
the last 100 entries (`m.timeline = m.timeline[1:]` when the length exceeds
100). -/
def handleEvent (timeline : List TimelineEvent) (e : TimelineEvent) : List TimelineEvent :=
  let t := timeline ++ [e]
  if 100 < t.length then t.drop 1 else t

/-- Routing a whole event sequence through the manager, starting from the
empty timeline `NewManager` creates. -/
def runEvents (evs : List TimelineEvent) : List TimelineEvent :=
  evs.foldl handleEvent []

theorem handleEvent_length_le (t : List TimelineEvent) (e : TimelineEvent)
    (h : t.length ≤ 100) : (handleEvent t e).length ≤ 100 := by
  show (if 100 < (t ++ [e]).length then (t ++ [e]).drop 1 else (t ++ [e])).length ≤ 100
  split <;> simp_all

theorem foldl_handleEvent_length_le (evs : List TimelineEvent) (t : List TimelineEvent)
    (h : t.length ≤ 100) : (evs.foldl handleEvent t).length ≤ 100 := by
  induction evs generalizing t with
  | nil => simpa using h
  | cons e rest ih =>
    simpa using ih (handleEvent t e) (handleEvent_length_le t e h)

/-- C9: the timeline never exceeds the 100-entry cap for any routed event
sequence, and appending to a full timeline drops exactly the oldest entry
while keeping all newer entries in order, with the new event last. -/
theorem timeline_bounded_and_drops_oldest (evs : List TimelineEvent)
    (t : List TimelineEvent) (e : TimelineEvent) (h : t.length = 100) :
    (runEvents evs).length ≤ 100 ∧
    handleEvent t e = t.drop 1 ++ [e] := by
  constructor
  · exact foldl_handleEvent_length_le evs [] (by simp)
  · show (if 100 < (t ++ [e]).length then (t ++ [e]).drop 1 else (t ++ [e])) = t.drop 1 ++ [e]
    have hlen : 100 < (t ++ [e]).length := by simp [h]
    rw [if_pos hlen]
    cases t with
    | nil => simp at h
    | cons x rest => simp

/-- A concrete event used to instantiate the C9 theorem. -/
def sampleEvent : TimelineEvent := ⟨0, "timeline_event", []⟩

theorem timeline_bounded_and_drops_oldest_witness :
    (runEvents []).length ≤ 100 ∧
    handleEvent (List.replicate 100 sampleEvent) sampleEvent
      = (List.replicate 100 sampleEvent).drop 1 ++ [sampleEvent] :=
  timeline_bounded_and_drops_oldest [] (List.replicate 100 sampleEvent) sampleEvent (by simp)
